import Mathlib

/-!
Verification development for the i18n-copilot translation pipeline.

The TypeScript sources are embedded shallowly:
* `TranslationData` (a recursive string-keyed mapping whose leaves are
  strings) becomes the mutual inductive pair `TValue`/`TObj`; a `TObj` is
  the association list of a JavaScript object in insertion order (object
  keys are unique in JavaScript, lookups read the binding stored for a key,
  assignments replace it in place or append a new binding at the end).
* Mutating functions (`setNestedValue`) return the updated tree.
* `async` functions and thrown exceptions become `Except`; file reads are a
  pure environment `String → Except String TObj` standing for
  `parser.parseFile`; the provider network call is an oracle
  `TranslationRequest → Nat → Except String String` giving the outcome of
  each numbered attempt.
* `Date` timestamps and the real-time `setTimeout` of the watcher are
  modelled with natural-number times; a debounce timer set at time `t`
  with window `d` fires (and its event is emitted) exactly when no later
  event with the same `(eventType, filePath)` key arrives strictly before
  `t + d`, which is the behaviour of the `clearTimeout`/`setTimeout` pair
  in `debounceFileChange`.
-/

mutual
/-- Leaf or nested object of a translation tree
(a value of `TranslationData` in `src/core/parser.ts`). -/
inductive TValue where
  | str : String → TValue
  | obj : TObj → TValue

/-- A translation tree: the association list of a JavaScript object in
insertion order (`TranslationData` itself). -/
inductive TObj where
  | nil : TObj
  | cons : String → TValue → TObj → TObj
end

/-- Splitting loop behind `jsSplit`, working on character lists so that it
evaluates inside the kernel: at each position either the separator is a
prefix (cut here, continue past it) or the character joins the current
piece. The fuel is the input length, enough for any non-empty separator. -/
def splitOnListGo (sep : List Char) : Nat → List Char → List (List Char)
  | _, [] => [[]]
  | 0, l => [l]
  | f + 1, c :: cs =>
    if sep.isPrefixOf (c :: cs) then
      [] :: splitOnListGo sep f ((c :: cs).drop sep.length)
    else
      match splitOnListGo sep f cs with
      | [] => [[c]]
      | g :: gs => (c :: g) :: gs

/-- JavaScript `s.split(sep)` for a non-empty string separator: the
non-overlapping left-to-right cut, with `"".split(sep) = [""]` and empty
pieces kept. -/
def jsSplit (s sep : String) : List String :=
  (splitOnListGo sep.data s.data.length s.data).map String.mk

/-- Membership test for JavaScript whitespace as it occurs in the sources
(ASCII space, tab, and line breaks). -/
def isJsWhitespace (c : Char) : Bool :=
  c = ' ' || c = '\t' || c = '\n' || c = '\r'

/-- JavaScript `s.trim()`: leading and trailing whitespace removed. -/
def jsTrim (s : String) : String :=
  String.mk (((s.data.dropWhile isJsWhitespace).reverse.dropWhile isJsWhitespace).reverse)

/-- JavaScript `parts.join(sep)`. -/
def joinWith (sep : String) : List String → String
  | [] => ""
  | [p] => p
  | p :: q :: rest => p ++ sep ++ joinWith sep (q :: rest)

/-- JavaScript `s.toLowerCase()` on the ASCII strings of the sources. -/
def jsToLower (s : String) : String :=
  String.mk (s.data.map Char.toLower)

/-- Removal of the last `n` characters of a string
(JavaScript slicing used to strip a known extension suffix). -/
def dropRightChars (s : String) (n : Nat) : String :=
  String.mk (s.data.take (s.data.length - n))

/-- Dot-joining of key-path segments, as done by the template literal in
`extractAllKeys`/`extractKeys` that joins a non-empty walk prefix, a dot
and the key (the JavaScript truthiness test on a string is a non-emptiness
test). -/
def joinKey (pre k : String) : String :=
  if pre = "" then k else pre ++ "." ++ k

/-- Depth-first collection of all leaf key paths, embedding the identical
functions `TranslationDiffDetector.extractAllKeys` and
`TranslationParser.extractKeys`: a string value contributes its dot path,
a nested object is recursed into. -/
def extractAllKeys (data : TObj) (pre : String) : List String :=
  match data with
  | .nil => []
  | .cons k (TValue.str _) rest => joinKey pre k :: extractAllKeys rest pre
  | .cons k (TValue.obj sub) rest =>
      extractAllKeys sub (joinKey pre k) ++ extractAllKeys rest pre

/-- Property lookup `key in current` / `current[key]` on a JavaScript
object, reading the binding stored for `key`. -/
def lookupKey (data : TObj) (key : String) : Option TValue :=
  match data with
  | .nil => none
  | .cons k v rest => if k = key then some v else lookupKey rest key

/-- Property assignment `current[key] = val` on a JavaScript object:
replaces the existing binding for `key` or appends a new one. -/
def upsert (data : TObj) (key : String) (val : TValue) : TObj :=
  match data with
  | .nil => .cons key val .nil
  | .cons k v rest =>
      if k = key then .cons key val rest else .cons k v (upsert rest key val)

/-- Walk a list of path segments from a value, requiring an object holding
the segment at every step; this is the loop shared by `getNestedValue`
(both the parser and the diff detector have an identical copy) and by the
orchestrator helper `getNestedObject`. -/
def walkPath (v : TValue) (segs : List String) : Option TValue :=
  match segs, v with
  | [], _ => some v
  | _ :: _, .str _ => none
  | k :: ks, .obj entries =>
      match lookupKey entries k with
      | some v2 => walkPath v2 ks
      | none => none

/-- Embedding of `getNestedValue(data, key)`: split `key` on `"."`, walk
the tree, and return the final value only when it is a string. -/
def getNestedValue (data : TObj) (key : String) : Option String :=
  match walkPath (.obj data) (jsSplit key ".") with
  | some (.str s) => some s
  | _ => none

/-- Recursive core of `TranslationParser.setNestedValue` on the split
segment list. The source loop skips an empty intermediate segment entirely
(the `if (k)` guards), replaces a missing or non-object intermediate with
a fresh `{}` before descending, and only writes the final segment when it
is non-empty (`if (finalKey)`). -/
def setSegs (data : TObj) (segs : List String) (value : String) : TObj :=
  match segs with
  | [] => data
  | [last] => if last = "" then data else upsert data last (.str value)
  | k :: s :: rest =>
      if k = "" then setSegs data (s :: rest) value
      else
        let sub := match lookupKey data k with
          | some (.obj o) => o
          | _ => TObj.nil
        upsert data k (.obj (setSegs sub (s :: rest) value))

/-- Embedding of `TranslationParser.setNestedValue(data, key, value)`,
returning the mutated tree. -/
def setNestedValue (data : TObj) (key value : String) : TObj :=
  setSegs data (jsSplit key ".") value

/-- Options of `TranslationDiffDetector` that affect value comparison. -/
structure DiffOptions where
  ignoreCase : Bool
  ignoreWhitespace : Bool

/-- Embedding of the private `valuesAreDifferent`: equal strings are never
different; otherwise both sides are lower-cased under `ignoreCase` and
trimmed under `ignoreWhitespace` before the final comparison. -/
def valuesAreDifferent (opts : DiffOptions) (oldValue newValue : String) : Bool :=
  if oldValue = newValue then false
  else
    let o1 := if opts.ignoreCase then jsToLower oldValue else oldValue
    let n1 := if opts.ignoreCase then jsToLower newValue else newValue
    let o2 := if opts.ignoreWhitespace then jsTrim o1 else o1
    let n2 := if opts.ignoreWhitespace then jsTrim n1 else n1
    o2 != n2

/-- The four key-path lists of a `DiffResult`. -/
structure TranslationDiff where
  added : List String
  modified : List String
  removed : List String
  unchanged : List String

/-- Aggregate counts of a `DiffResult` (`summary`). -/
structure DiffSummary where
  totalKeys : Nat
  addedCount : Nat
  modifiedCount : Nat
  removedCount : Nat
  unchangedCount : Nat

/-- Result of `detectDiff` (the per-key `details` map is not needed by any
claim and is omitted). -/
structure DiffResult where
  diff : TranslationDiff
  summary : DiffSummary

/-- Per-key classification predicate used below: `detectDiff` pushes a new
key to `added` exactly when `getNestedValue(oldData, key)` is undefined. -/
def isAddedKey (oldData : TObj) (key : String) : Bool :=
  (getNestedValue oldData key).isNone

/-- A new key is pushed to `modified` when it has an old value and
`valuesAreDifferent(oldValue, newValue || "")` holds. -/
def isModifiedKey (opts : DiffOptions) (oldData newData : TObj) (key : String) : Bool :=
  match getNestedValue oldData key with
  | some ov => valuesAreDifferent opts ov ((getNestedValue newData key).getD "")
  | none => false

/-- A new key is pushed to `unchanged` in the remaining case. -/
def isUnchangedKey (opts : DiffOptions) (oldData newData : TObj) (key : String) : Bool :=
  match getNestedValue oldData key with
  | some ov => !(valuesAreDifferent opts ov ((getNestedValue newData key).getD ""))
  | none => false

/-- Embedding of `TranslationDiffDetector.detectDiff`. The source loops
over `newKeys` pushing each key to exactly one of `added`/`modified`/
`unchanged` according to the if/else chain, then pushes every old key not
contained in `newKeys` to `removed`; the single-pass loops are rendered as
order-preserving filters with the same tests. -/
def detectDiff (opts : DiffOptions) (oldData newData : TObj) : DiffResult :=
  let oldKeys := extractAllKeys oldData ""
  let newKeys := extractAllKeys newData ""
  let added := newKeys.filter (fun k => isAddedKey oldData k)
  let modified := newKeys.filter (fun k => isModifiedKey opts oldData newData k)
  let unchanged := newKeys.filter (fun k => isUnchangedKey opts oldData newData k)
  let removed := oldKeys.filter (fun k => !(newKeys.contains k))
  { diff := { added := added, modified := modified, removed := removed, unchanged := unchanged }
    summary :=
      { totalKeys := newKeys.length
        addedCount := added.length
        modifiedCount := modified.length
        removedCount := removed.length
        unchangedCount := unchanged.length } }

/-- Embedding of `getKeysNeedingIncrementalTranslation(baseData, targetData)`:
the loop over the base leaf keys keeps a key when its target value is
`undefined` or trims to the empty string. -/
def getKeysNeedingIncrementalTranslation (baseData targetData : TObj) : List String :=
  (extractAllKeys baseData "").filter (fun key =>
    match getNestedValue targetData key with
    | none => true
    | some v => jsTrim v == "")

/-- A `TranslationRequest` as built by `processLanguagePair`. -/
structure TranslationRequest where
  key : String
  text : String
  sourceLanguage : String
  targetLanguage : String
  context : Option String

/-- A `TranslationResponse`; the `Date` timestamp field carries no
information relevant to any claim and is omitted. -/
structure TranslationResponse where
  key : String
  originalText : String
  translatedText : String
  sourceLanguage : String
  targetLanguage : String
  success : Bool
  error : Option String
  provider : String

/-- A `TranslationBatch` after `processBatch` has finished (start and end
`Date` fields omitted). -/
structure TranslationBatch where
  requests : List TranslationRequest
  responses : List TranslationResponse
  successCount : Nat
  errorCount : Nat

/-- The orchestrator configuration relevant to the embedded functions:
`config.baseLanguage`, `config.targetLanguages` and the `TranslatorOptions`
fields. -/
structure OrchConfig where
  baseLanguage : String
  targetLanguages : List String
  batchSize : Nat
  retryAttempts : Nat
  retryDelay : Nat
  rateLimitDelay : Nat
  contextInjection : Bool

/-- Outcome trace of one `translateWithRetry` call: the value returned or
error thrown, how many times `provider.translate` was invoked, and the
`delay` durations awaited between attempts, in order. -/
structure RetryResult where
  outcome : Except String String
  calls : Nat
  delays : List Nat

/-- One iteration of the `for (attempt = 1; attempt <= retryAttempts; ...)`
loop of `translateWithRetry`: `remaining` counts the attempts still
allowed (so `attempt < retryAttempts` is `0 < r` after consuming one), the
oracle gives the outcome of the numbered attempt, a success returns at
once, a failure stores the error, delays `retryDelay * attempt` unless
this was the final attempt, and exhaustion throws the stored last error
(or the fallback message when no attempt ever ran). -/
def retryGo (oracle : Nat → Except String String) (retryDelay : Nat) :
    Nat → Nat → Option String → RetryResult
  | _, 0, lastError =>
    ⟨.error (lastError.getD "Translation failed after all retry attempts"), 0, []⟩
  | attempt, r + 1, _ =>
    match oracle attempt with
    | .ok t => ⟨.ok t, 1, []⟩
    | .error e =>
      let rest := retryGo oracle retryDelay (attempt + 1) r (some e)
      ⟨rest.outcome, rest.calls + 1,
        if 0 < r then retryDelay * attempt :: rest.delays else rest.delays⟩

/-- Embedding of `translateWithRetry` for one request, given the oracle of
that request's attempt outcomes. -/
def translateWithRetry (oracle : Nat → Except String String)
    (retryAttempts retryDelay : Nat) : RetryResult :=
  retryGo oracle retryDelay 1 retryAttempts none

/-- The successful `TranslationResponse` built inside `translateWithRetry`. -/
def successResponse (req : TranslationRequest) (translatedText provName : String) :
    TranslationResponse :=
  { key := req.key, originalText := req.text, translatedText := translatedText
    sourceLanguage := req.sourceLanguage, targetLanguage := req.targetLanguage
    success := true, error := none, provider := provName }

/-- The failed `TranslationResponse` built in the `catch` branch of
`processBatch` when `translateWithRetry` has thrown its last error. -/
def failureResponse (req : TranslationRequest) (errMsg provName : String) :
    TranslationResponse :=
  { key := req.key, originalText := req.text, translatedText := ""
    sourceLanguage := req.sourceLanguage, targetLanguage := req.targetLanguage
    success := false, error := some errMsg, provider := provName }

/-- Embedding of `processBatch`: every request is run through
`translateWithRetry`; a thrown last error is caught and recorded as a
failed response; one response is appended per request in request order,
and each response bumps exactly one of the two counters. -/
def processBatch (oracle : TranslationRequest → Nat → Except String String)
    (cfg : OrchConfig) (provName : String)
    (requests : List TranslationRequest) : TranslationBatch :=
  let responses := requests.map (fun req =>
    match (translateWithRetry (oracle req) cfg.retryAttempts cfg.retryDelay).outcome with
    | .ok t => successResponse req t provName
    | .error e => failureResponse req e provName)
  { requests := requests
    responses := responses
    successCount := responses.countP (fun r => r.success)
    errorCount := responses.countP (fun r => !r.success) }

/-- Collection of sibling display strings for `extractContext`: the source
iterates `Object.entries(currentLevel)` keeping string-valued entries whose
key differs from the final path segment, rendered as `key + ": " + value`. -/
def siblingEntries (entries : TObj) (lastKey : String) : List String :=
  match entries with
  | .nil => []
  | .cons k (.str s) rest =>
      if k = lastKey then siblingEntries rest lastKey
      else (k ++ ": " ++ s) :: siblingEntries rest lastKey
  | .cons _ (.obj _) rest => siblingEntries rest lastKey

/-- Embedding of the orchestrator's `extractContext`. The parent branch
fires only for a non-empty `parentKey` (string truthiness) whose
`getNestedValue` is a non-empty string, returning the `Context: `-prefixed
parent value; otherwise siblings are collected at the parent level (the
tree root for a top-level key, via `getNestedObject` otherwise) and, when
any exist, the first three are joined with `", "` behind `Related: `;
failing both, the empty string is returned. -/
def extractContext (data : TObj) (key : String) : String :=
  let keys := jsSplit key "."
  let parentKey := joinWith "." keys.dropLast
  let fromParent : Option String :=
    if parentKey ≠ "" then
      match getNestedValue data parentKey with
      | some v => if v ≠ "" then some ("Context: " ++ v) else none
      | none => none
    else none
  match fromParent with
  | some r => r
  | none =>
    let lastKey := keys.getLast?.getD ""
    let currentLevel : Option TValue :=
      if keys.dropLast ≠ [] then walkPath (.obj data) keys.dropLast
      else some (.obj data)
    let sibs :=
      match currentLevel with
      | some (.obj entries) => siblingEntries entries lastKey
      | _ => []
    if sibs ≠ [] then "Related: " ++ joinWith ", " (sibs.take 3) else ""

/-- Replacement of the first occurrence of `pat` in `s` by `repl`, the
semantics of the JavaScript `String.prototype.replace` with a string
pattern, used by `detectTargetLanguage` to strip `".json"`. -/
def replaceFirst (s pat repl : String) : String :=
  match jsSplit s pat with
  | [] => s
  | [_] => s
  | p0 :: rest => p0 ++ repl ++ joinWith pat rest

/-- Embedding of the orchestrator's `detectTargetLanguage`: the path's last
`/`-component with `".json"` stripped, validated against
`config.targetLanguages`, falling back to the first configured target
language (or `"en"` with none configured). -/
def detectTargetLanguage (cfg : OrchConfig) (filePath : String) : String :=
  let fileName := ((jsSplit filePath "/").getLast?).getD ""
  let languageCode := replaceFirst fileName ".json" ""
  if cfg.targetLanguages.contains languageCode then languageCode
  else (cfg.targetLanguages.head?).getD "en"

/-- Fuelled chunking loop of `processLanguagePair`
(`for (i = 0; i < requests.length; i += batchSize) slice(i, i + batchSize)`).
The fuel is the list length, which suffices because the orchestrator's
`batchSize` is at least 1 (default 10). -/
def chunkGo (n : Nat) : Nat → List TranslationRequest → List (List TranslationRequest)
  | _, [] => []
  | 0, _ => []
  | fuel + 1, x :: xs => ((x :: xs).take n) :: chunkGo n fuel ((x :: xs).drop n)

/-- Splitting of the request list into batches of `batchSize`. -/
def chunkRequests (requests : List TranslationRequest) (n : Nat) :
    List (List TranslationRequest) :=
  chunkGo n requests.length requests

/-- The `TranslationRequest` built per key by `processLanguagePair`: the
text is the base leaf value (`getNestedValue(baseData, key) || ""`), and
the context is attached only under `contextInjection` and only when
non-empty (`context || undefined`). -/
def buildRequest (cfg : OrchConfig) (baseData : TObj)
    (sourceLanguage targetFilePath key : String) : TranslationRequest :=
  { key := key
    text := (getNestedValue baseData key).getD ""
    sourceLanguage := sourceLanguage
    targetLanguage := detectTargetLanguage cfg targetFilePath
    context :=
      if cfg.contextInjection then
        (if extractContext baseData key = "" then none
         else some (extractContext baseData key))
      else none }

/-- All batches executed by one `processLanguagePair` call, in execution
order: the incremental keys are turned into requests, chunked by
`batchSize`, and each chunk is run through `processBatch` (with a
rate-limit delay after every batch but the last, which affects no batch
content). An empty key list short-circuits to no batch. -/
def processLanguagePairAll (oracle : TranslationRequest → Nat → Except String String)
    (cfg : OrchConfig) (provName : String) (baseData targetData : TObj)
    (sourceLanguage targetFilePath : String) : List TranslationBatch :=
  let keys := getKeysNeedingIncrementalTranslation baseData targetData
  if keys.isEmpty then []
  else
    let requests := keys.map (buildRequest cfg baseData sourceLanguage targetFilePath)
    (chunkRequests requests cfg.batchSize).map (processBatch oracle cfg provName)

/-- Embedding of `processLanguagePair`: the source executes every batch but
ends with `return batches[0] || null` (its own comment: "Return first
batch for now"), so only the head of the executed batch list is returned. -/
def processLanguagePair (oracle : TranslationRequest → Nat → Except String String)
    (cfg : OrchConfig) (provName : String) (baseData targetData : TObj)
    (sourceLanguage targetFilePath : String) : Option TranslationBatch :=
  (processLanguagePairAll oracle cfg provName baseData targetData
    sourceLanguage targetFilePath).head?

/-- The per-target loop of `processFileChanges`: targets are processed in
order; a target whose parse throws is caught, recorded as an `error`
observation `(file, message)`, and skipped; a returned batch is kept when
it is non-null with a non-empty request list. -/
def processTargets (env : String → Except String TObj)
    (oracle : TranslationRequest → Nat → Except String String)
    (cfg : OrchConfig) (provName : String) (baseData : TObj) :
    List String → List TranslationBatch × List (String × String)
  | [] => ([], [])
  | t :: ts =>
    let rest := processTargets env oracle cfg provName baseData ts
    match env t with
    | .error e => (rest.1, (t, e) :: rest.2)
    | .ok targetData =>
      match processLanguagePair oracle cfg provName baseData targetData
          cfg.baseLanguage t with
      | none => rest
      | some b => if 0 < b.requests.length then (b :: rest.1, rest.2) else rest

/-- Embedding of `processFileChanges` on the path where a provider is set
and no run is in flight (the claims under verification presuppose both
guards have passed; each guard otherwise throws before this code runs).
A base-file parse failure propagates out; per-target failures are caught
inside `processTargets`. The result pairs the returned batch list with the
emitted `error` observations. -/
def processFileChanges (env : String → Except String TObj)
    (oracle : TranslationRequest → Nat → Except String String)
    (cfg : OrchConfig) (provName : String)
    (baseLanguageFile : String) (targetLanguageFiles : List String) :
    Except String (List TranslationBatch × List (String × String)) :=
  match env baseLanguageFile with
  | .error e => .error e
  | .ok baseData =>
    .ok (processTargets env oracle cfg provName baseData targetLanguageFiles)

/-- The provider surface seen by `setProvider`: a name and the
`validateConfig` predicate over the provider configuration record
(an opaque string record suffices for the claims). -/
structure ProviderM where
  name : String
  validateConfig : List (String × String) → Bool

/-- Orchestrator state touched by `setProvider`. -/
structure OrchState where
  provider : Option ProviderM
  isProcessing : Bool
  providerConfig : List (String × String)

/-- Observations emitted by the orchestrator relevant to `setProvider`. -/
inductive OrchEvent where
  | providerChanged (name : String)

/-- Embedding of `setProvider`: an invalid configuration throws before the
provider field is assigned and before any observation is emitted; a valid
one stores the provider and emits `providerChanged`. -/
def setProvider (st : OrchState) (p : ProviderM) :
    Except String Unit × OrchState × List OrchEvent :=
  if p.validateConfig st.providerConfig then
    (.ok (), { st with provider := some p }, [.providerChanged p.name])
  else
    (.error ("Invalid configuration for provider: " ++ p.name), st, [])

/-- POSIX `path.basename`: the last `/`-separated component. -/
def pathBasename (p : String) : String :=
  ((jsSplit p "/").getLast?).getD ""

/-- POSIX `path.extname`: the suffix of the basename from its last dot,
empty when the basename has no dot or only its leading dot-file dot. -/
def pathExtname (p : String) : String :=
  let name := pathBasename p
  match jsSplit name "." with
  | [] => ""
  | [_] => ""
  | ["", _] => ""
  | parts => "." ++ ((parts.getLast?).getD "")

/-- ASCII lower-case letter test, for the watcher's language regexes. -/
def isLowerAlpha (c : Char) : Bool :=
  ('a' ≤ c) && (c ≤ 'z')

/-- ASCII upper-case letter test. -/
def isUpperAlpha (c : Char) : Bool :=
  ('A' ≤ c) && (c ≤ 'Z')

/-- The anchored regex `^[a-z]{2,3}(-[A-Z]{2})?$` used by the watcher (and
the auto-translator) to recognise a language tag, unfolded over the four
possible shapes of a match. -/
def isLangTag (s : String) : Bool :=
  match s.toList with
  | [a, b] => isLowerAlpha a && isLowerAlpha b
  | [a, b, c] => isLowerAlpha a && isLowerAlpha b && isLowerAlpha c
  | [a, b, '-', d, e] =>
      isLowerAlpha a && isLowerAlpha b && isUpperAlpha d && isUpperAlpha e
  | [a, b, c, '-', d, e] =>
      isLowerAlpha a && isLowerAlpha b && isLowerAlpha c &&
        isUpperAlpha d && isUpperAlpha e
  | _ => false

/-- Embedding of the watcher's `detectLanguageFromPath`: first the basename
with its extension stripped is matched as a language tag; failing that, the
path segment immediately after a directory named `locales`, `i18n`,
`translations` or `lang` (case-insensitively) is tried, when non-empty and
itself a language tag. -/
def detectLanguageFromPath (filePath : String) : Option String :=
  let base := pathBasename filePath
  let fileName := dropRightChars base (pathExtname filePath).data.length
  if isLangTag fileName then some fileName
  else
    let pathParts := jsSplit filePath "/"
    match pathParts.findIdx? (fun part =>
        ["locales", "i18n", "translations", "lang"].contains (jsToLower part)) with
    | none => none
    | some i =>
      match pathParts.get? (i + 1) with
      | none => none
      | some candidate =>
        if candidate ≠ "" && isLangTag candidate then some candidate else none

/-- Watcher configuration relevant to event filtering: the base language
and the optional `config.filePattern` regex, the latter modelled abstractly
by its membership test on the basename (`new RegExp(pattern).test`). -/
structure WatchCfg where
  baseLanguage : String
  patternTest : Option (String → Bool)

/-- Embedding of the watcher's `isTranslationFile`: when a file pattern is
configured the basename must match it, and in any case the extension must
be one of the recognised translation-file extensions. -/
def isTranslationFile (cfg : WatchCfg) (filePath : String) : Bool :=
  let fileName := pathBasename filePath
  let ext := pathExtname filePath
  let extOk := [".json", ".yaml", ".yml", ".js", ".ts"].contains ext
  match cfg.patternTest with
  | some test => if !(test fileName) then false else extOk
  | none => extOk

/-- Embedding of `handleFileChange` up to the debounce call: the event is
dropped unless the file is a translation file, a language resolves from
its path, and that language is the configured base language; otherwise the
`(type, path, language)` triple reaches `debounceFileChange`. -/
def handleFileChange (cfg : WatchCfg) (ty filePath : String) :
    Option (String × String × String) :=
  if !(isTranslationFile cfg filePath) then none
  else
    match detectLanguageFromPath filePath with
    | none => none
    | some lang =>
      if lang ≠ cfg.baseLanguage then none else some (ty, filePath, lang)

/-- A raw event that has passed `handleFileChange` and entered the debounce
map, tagged with its arrival time. -/
structure PendingEvent where
  time : Nat
  etype : String
  filePath : String
  language : String

/-- The `FileChangeEvent` observation emitted by `processFileChange`, with
its emission time (the debounce timer expiry) as timestamp. -/
structure EmittedEvent where
  etype : String
  filePath : String
  language : String
  timestamp : Nat

/-- The debounce map key, built in the source as `type + ":" + filePath`. -/
def debKey (etype filePath : String) : String :=
  etype ++ ":" ++ filePath

/-- Whether the debounce timer set for event `e` survives until expiry: in
`debounceFileChange` a later event for the same key clears a still-pending
timer, so the timer set at `e.time` with window `d` fires exactly when
every later same-key event arrives no earlier than `e.time + d`. -/
def timerSurvives (d : Nat) (e : PendingEvent) (later : List PendingEvent) : Bool :=
  later.all (fun e2 =>
    decide (debKey e2.etype e2.filePath ≠ debKey e.etype e.filePath ∨
      e.time + d ≤ e2.time))

/-- The coalesced observations emitted for a time-ordered list of events
that entered the debounce map: each event whose timer survives produces
one emission at its expiry time. -/
def debounceEmissions (d : Nat) : List PendingEvent → List EmittedEvent
  | [] => []
  | e :: rest =>
    (if timerSurvives d e rest then
      [⟨e.etype, e.filePath, e.language, e.time + d⟩]
     else []) ++ debounceEmissions d rest

/-- The watcher pipeline for a list of timestamped raw events
`(time, eventType, filePath)`: `handleFileChange` filters and annotates
each event, and the survivors are debounced. -/
def watcherEmissions (cfg : WatchCfg) (d : Nat)
    (raw : List (Nat × String × String)) : List EmittedEvent :=
  debounceEmissions d (raw.filterMap (fun r =>
    (handleFileChange cfg r.2.1 r.2.2).map (fun f => ⟨r.1, f.1, f.2.1, f.2.2⟩)))

theorem countP_not_eq (p : α → Bool) (l : List α) :
    l.countP (fun a => !p a) = l.countP (fun a => decide ¬(p a = true)) :=
  List.countP_congr (fun a _ => by cases p a <;> simp)

/-- C2: a key is selected by `getKeysNeedingIncrementalTranslation(B, T)`
exactly when it is a leaf key of the base tree and its value in the target
tree is undefined or trims to the empty string; a key with a non-blank
target value is never selected. -/
theorem c2_incremental_selection (B T : TObj) (k : String) :
    k ∈ getKeysNeedingIncrementalTranslation B T ↔
      k ∈ extractAllKeys B "" ∧
        (getNestedValue T k = none ∨
          ∃ s, getNestedValue T k = some s ∧ jsTrim s = "") := by
  rw [getKeysNeedingIncrementalTranslation, List.mem_filter]
  apply and_congr Iff.rfl
  cases h : getNestedValue T k <;> simp [h]

/-- C10: `setProvider` is atomic on failure: when the candidate provider
fails `validateConfig` the call throws the configuration error, the stored
provider (set or unset) is untouched and no observation is emitted; when
validation passes the provider is stored and `providerChanged` is emitted. -/
theorem c10_set_provider_atomic (st : OrchState) (p : ProviderM) :
    (p.validateConfig st.providerConfig = false →
      setProvider st p =
        (.error ("Invalid configuration for provider: " ++ p.name), st, [])) ∧
    (p.validateConfig st.providerConfig = true →
      setProvider st p =
        (.ok (), { st with provider := some p }, [.providerChanged p.name])) := by
  constructor <;> intro h <;> simp [setProvider, h]

def c10State : OrchState :=
  { provider := none, isProcessing := false, providerConfig := [] }

def c10Prov : ProviderM :=
  { name := "p", validateConfig := fun _ => false }

theorem c10_set_provider_atomic_witness :
    c10Prov.validateConfig c10State.providerConfig = false ∧
    setProvider c10State c10Prov =
      (.error "Invalid configuration for provider: p", c10State, []) :=
  ⟨rfl, (c10_set_provider_atomic c10State c10Prov).1 rfl⟩

/-- C4: `processBatch` yields exactly one response per submitted request,
in submission order (same key and original text position by position), and
its success and error counters sum to the number of requests; a request
whose retries all failed is recorded as a response rather than escaping as
an exception. -/
theorem c4_batch_completeness (oracle : TranslationRequest → Nat → Except String String)
    (cfg : OrchConfig) (provName : String) (requests : List TranslationRequest) :
    (processBatch oracle cfg provName requests).responses.length = requests.length ∧
    (processBatch oracle cfg provName requests).responses.map (fun r => r.key)
      = requests.map (fun r => r.key) ∧
    (processBatch oracle cfg provName requests).responses.map (fun r => r.originalText)
      = requests.map (fun r => r.text) ∧
    (processBatch oracle cfg provName requests).successCount
        + (processBatch oracle cfg provName requests).errorCount
      = requests.length := by
  refine ⟨?_, ?_, ?_, ?_⟩
  · simp [processBatch]
  · rw [processBatch]
    simp only [List.map_map]
    apply List.map_congr_left
    intro req _
    cases h : (translateWithRetry (oracle req) cfg.retryAttempts cfg.retryDelay).outcome <;>
      simp [h, successResponse, failureResponse]
  · rw [processBatch]
    simp only [List.map_map]
    apply List.map_congr_left
    intro req _
    cases h : (translateWithRetry (oracle req) cfg.retryAttempts cfg.retryDelay).outcome <;>
      simp [h, successResponse, failureResponse]
  · rw [processBatch]
    simp only
    rw [countP_not_eq]
    rw [← List.length_eq_countP_add_countP]
    simp

theorem retryGo_always_error (oracle : Nat → Except String String)
    (errs : Nat → String) (h : ∀ n, oracle n = .error (errs n)) (rd : Nat) :
    ∀ (r attempt : Nat) (lastError : Option String),
      retryGo oracle rd attempt (r + 1) lastError =
        ⟨.error (errs (attempt + r)), r + 1,
          (List.range' attempt r).map (fun n => rd * n)⟩
  | 0, attempt, lastError => by
    simp [retryGo, h attempt]
  | r + 1, attempt, lastError => by
    have hrec := retryGo_always_error oracle errs h rd r (attempt + 1) (some (errs attempt))
    have h1 : attempt + 1 + r = attempt + (r + 1) := by omega
    rw [retryGo, h attempt]
    simp only [hrec]
    simp [List.range'_succ, h1]

/-- C5: for a provider whose translate always throws, one request causes
exactly `retryAttempts` calls before being recorded as a failed response
carrying the final error; the delay awaited before retry `n` is
`retryDelay * n`, with no delay after the last attempt (so the delay trace
is `retryDelay * 1, ..., retryDelay * (retryAttempts - 1)`). -/
theorem c5_retry_bound (oracle : Nat → Except String String) (errs : Nat → String)
    (ra rd : Nat) (h1 : 1 ≤ ra) (h2 : ∀ n, oracle n = .error (errs n)) :
    translateWithRetry oracle ra rd =
      ⟨.error (errs ra), ra, (List.range' 1 (ra - 1)).map (fun n => rd * n)⟩ ∧
    ∀ (cfg : OrchConfig) (provName : String) (req : TranslationRequest),
      cfg.retryAttempts = ra → cfg.retryDelay = rd →
      (processBatch (fun _ => oracle) cfg provName [req]).responses =
        [failureResponse req (errs ra) provName] := by
  obtain ⟨r, rfl⟩ : ∃ r, ra = r + 1 := ⟨ra - 1, by omega⟩
  have key := retryGo_always_error oracle errs h2 rd r 1 none
  have h1' : 1 + r = r + 1 := Nat.add_comm 1 r
  constructor
  · rw [translateWithRetry, key, h1']
    simp
  · intro cfg provName req hra hrd
    rw [processBatch]
    simp only [List.map]
    rw [hra, hrd, translateWithRetry, key]
    simp [h1']

theorem c5_retry_bound_witness :
    (1 ≤ 3) ∧
    translateWithRetry (fun _ => .error "boom") 3 1000 =
      ⟨.error "boom", 3, [1000, 2000]⟩ :=
  ⟨by omega,
    (c5_retry_bound (fun _ => .error "boom") (fun _ => "boom") 3 1000 (by omega)
      (fun _ => rfl)).1⟩

theorem mem_diff_added (opts : DiffOptions) (A B : TObj) (k : String) :
    k ∈ (detectDiff opts A B).diff.added ↔
      k ∈ extractAllKeys B "" ∧ isAddedKey A k = true := by
  simp [detectDiff, List.mem_filter]

theorem mem_diff_modified (opts : DiffOptions) (A B : TObj) (k : String) :
    k ∈ (detectDiff opts A B).diff.modified ↔
      k ∈ extractAllKeys B "" ∧ isModifiedKey opts A B k = true := by
  simp [detectDiff, List.mem_filter]

theorem mem_diff_unchanged (opts : DiffOptions) (A B : TObj) (k : String) :
    k ∈ (detectDiff opts A B).diff.unchanged ↔
      k ∈ extractAllKeys B "" ∧ isUnchangedKey opts A B k = true := by
  simp [detectDiff, List.mem_filter]

theorem mem_diff_removed (opts : DiffOptions) (A B : TObj) (k : String) :
    k ∈ (detectDiff opts A B).diff.removed ↔
      k ∈ extractAllKeys A "" ∧ ¬(k ∈ extractAllKeys B "") := by
  simp [detectDiff, List.mem_filter]

theorem classify_trichotomy (opts : DiffOptions) (A B : TObj) (k : String) :
    (isAddedKey A k = true ∧ isModifiedKey opts A B k = false
        ∧ isUnchangedKey opts A B k = false) ∨
    (isAddedKey A k = false ∧ isModifiedKey opts A B k = true
        ∧ isUnchangedKey opts A B k = false) ∨
    (isAddedKey A k = false ∧ isModifiedKey opts A B k = false
        ∧ isUnchangedKey opts A B k = true) := by
  cases h : getNestedValue A k with
  | none => exact Or.inl (by simp [isAddedKey, isModifiedKey, isUnchangedKey, h])
  | some a =>
    cases hv : valuesAreDifferent opts a ((getNestedValue B k).getD "") with
    | true =>
      exact Or.inr (Or.inl (by simp [isAddedKey, isModifiedKey, isUnchangedKey, h, hv]))
    | false =>
      exact Or.inr (Or.inr (by simp [isAddedKey, isModifiedKey, isUnchangedKey, h, hv]))

/-- C3: the four key-path lists of `detectDiff(A, B)` are pairwise disjoint
and, as a set, their concatenation is exactly the union of the leaf key
paths of the two trees, so its size equals the size of that union: every
key of either tree lands in exactly one of the four lists. -/
theorem c3_partition (opts : DiffOptions) (A B : TObj) :
    ((detectDiff opts A B).diff.added.Disjoint (detectDiff opts A B).diff.modified ∧
     (detectDiff opts A B).diff.added.Disjoint (detectDiff opts A B).diff.unchanged ∧
     (detectDiff opts A B).diff.added.Disjoint (detectDiff opts A B).diff.removed ∧
     (detectDiff opts A B).diff.modified.Disjoint (detectDiff opts A B).diff.unchanged ∧
     (detectDiff opts A B).diff.modified.Disjoint (detectDiff opts A B).diff.removed ∧
     (detectDiff opts A B).diff.unchanged.Disjoint (detectDiff opts A B).diff.removed) ∧
    ((detectDiff opts A B).diff.added ++ (detectDiff opts A B).diff.modified ++
        (detectDiff opts A B).diff.removed ++ (detectDiff opts A B).diff.unchanged).toFinset
      = (extractAllKeys A "").toFinset ∪ (extractAllKeys B "").toFinset ∧
    ((detectDiff opts A B).diff.added ++ (detectDiff opts A B).diff.modified ++
        (detectDiff opts A B).diff.removed ++ (detectDiff opts A B).diff.unchanged).toFinset.card
      = ((extractAllKeys A "").toFinset ∪ (extractAllKeys B "").toFinset).card := by
  have hset :
      ((detectDiff opts A B).diff.added ++ (detectDiff opts A B).diff.modified ++
          (detectDiff opts A B).diff.removed ++ (detectDiff opts A B).diff.unchanged).toFinset
        = (extractAllKeys A "").toFinset ∪ (extractAllKeys B "").toFinset := by
    apply Finset.ext
    intro k
    simp only [List.mem_toFinset, List.mem_append, Finset.mem_union]
    rw [mem_diff_added, mem_diff_modified, mem_diff_unchanged, mem_diff_removed]
    constructor
    · rintro (((⟨h, _⟩ | ⟨h, _⟩) | ⟨h, _⟩) | ⟨h, _⟩)
      · exact Or.inr h
      · exact Or.inr h
      · exact Or.inl h
      · exact Or.inr h
    · rintro (hA | hB)
      · by_cases hNew : k ∈ extractAllKeys B ""
        · rcases classify_trichotomy opts A B k with ⟨ha, _, _⟩ | ⟨_, hm, _⟩ | ⟨_, _, hu⟩
          · exact Or.inl (Or.inl (Or.inl ⟨hNew, ha⟩))
          · exact Or.inl (Or.inl (Or.inr ⟨hNew, hm⟩))
          · exact Or.inr ⟨hNew, hu⟩
        · exact Or.inl (Or.inr ⟨hA, hNew⟩)
      · rcases classify_trichotomy opts A B k with ⟨ha, _, _⟩ | ⟨_, hm, _⟩ | ⟨_, _, hu⟩
        · exact Or.inl (Or.inl (Or.inl ⟨hB, ha⟩))
        · exact Or.inl (Or.inl (Or.inr ⟨hB, hm⟩))
        · exact Or.inr ⟨hB, hu⟩
  refine ⟨⟨?_, ?_, ?_, ?_, ?_, ?_⟩, hset, by rw [hset]⟩
  · intro k h1 h2
    rw [mem_diff_added] at h1
    rw [mem_diff_modified] at h2
    rcases classify_trichotomy opts A B k with ⟨_, hm, _⟩ | ⟨ha, _, _⟩ | ⟨ha, hm, _⟩
    · rw [h2.2] at hm; cases hm
    · rw [h1.2] at ha; cases ha
    · rw [h1.2] at ha; cases ha
  · intro k h1 h2
    rw [mem_diff_added] at h1
    rw [mem_diff_unchanged] at h2
    rcases classify_trichotomy opts A B k with ⟨_, _, hu⟩ | ⟨ha, _, _⟩ | ⟨ha, _, _⟩
    · rw [h2.2] at hu; cases hu
    · rw [h1.2] at ha; cases ha
    · rw [h1.2] at ha; cases ha
  · intro k h1 h2
    rw [mem_diff_added] at h1
    rw [mem_diff_removed] at h2
    exact h2.2 h1.1
  · intro k h1 h2
    rw [mem_diff_modified] at h1
    rw [mem_diff_unchanged] at h2
    rcases classify_trichotomy opts A B k with ⟨_, hm, _⟩ | ⟨_, _, hu⟩ | ⟨_, hm, _⟩
    · rw [h1.2] at hm; cases hm
    · rw [h2.2] at hu; cases hu
    · rw [h1.2] at hm; cases hm
  · intro k h1 h2
    rw [mem_diff_modified] at h1
    rw [mem_diff_removed] at h2
    exact h2.2 h1.1
  · intro k h1 h2
    rw [mem_diff_unchanged] at h1
    rw [mem_diff_removed] at h2
    exact h2.2 h1.1

theorem splitOnListGo_ne_nil : ∀ (sep : List Char) (f : Nat) (l : List Char),
    splitOnListGo sep f l ≠ []
  | _, _, [] => by simp [splitOnListGo]
  | _, 0, _ :: _ => by simp [splitOnListGo]
  | sep, f + 1, c :: cs => by
    simp only [splitOnListGo]
    split
    · simp
    · split <;> simp

theorem jsSplit_ne_nil (s sep : String) : jsSplit s sep ≠ [] := by
  unfold jsSplit
  intro h
  exact splitOnListGo_ne_nil sep.data s.data.length s.data (by simpa using h)

theorem lookupKey_upsert : ∀ (l : TObj) (k : String) (x : TValue),
    lookupKey (upsert l k x) k = some x
  | .nil, k, x => by simp [upsert, lookupKey]
  | .cons k2 v rest, k, x => by
    by_cases h : k2 = k
    · simp [upsert, lookupKey, h]
    · simp [upsert, lookupKey, h, lookupKey_upsert rest k x]

theorem upsert_self : ∀ (l : TObj) (k : String) (x : TValue),
    lookupKey l k = some x → upsert l k x = l
  | .nil, k, x => by simp [lookupKey]
  | .cons k2 v rest, k, x => by
    by_cases h : k2 = k
    · intro hl
      rw [lookupKey, if_pos h] at hl
      rw [upsert, if_pos h]
      cases hl
      rw [h]
    · intro hl
      rw [lookupKey, if_neg h] at hl
      rw [upsert, if_neg h, upsert_self rest k x hl]

theorem getSegs_setSegs : ∀ (segs : List String) (data : TObj) (v : String),
    segs ≠ [] → (∀ s ∈ segs, s ≠ "") →
    walkPath (.obj (setSegs data segs v)) segs = some (.str v)
  | [], _, _, h, _ => absurd rfl h
  | [last], data, v, _, hs => by
    have hl : last ≠ "" := hs last (by simp)
    simp [setSegs, hl, walkPath, lookupKey_upsert]
  | k :: s :: rest, data, v, _, hs => by
    have hk : k ≠ "" := hs k (by simp)
    simp only [setSegs, if_neg hk, walkPath, lookupKey_upsert]
    exact getSegs_setSegs (s :: rest) _ v (by simp)
      (fun x hx => hs x (List.mem_cons_of_mem k hx))

theorem setSegs_self : ∀ (segs : List String) (data : TObj) (s : String),
    walkPath (.obj data) segs = some (.str s) → (∀ x ∈ segs, x ≠ "") →
    setSegs data segs s = data
  | [], data, s, h, _ => by simp [walkPath] at h
  | [last], data, s, h, hs => by
    have hl : last ≠ "" := hs last (by simp)
    simp only [walkPath] at h
    cases hlk : lookupKey data last with
    | none => rw [hlk] at h; simp at h
    | some v2 =>
      rw [hlk] at h
      simp [walkPath] at h
      subst h
      rw [setSegs, if_neg hl]
      exact upsert_self data last (.str s) hlk
  | k :: s2 :: rest, data, s, h, hs => by
    have hk : k ≠ "" := hs k (by simp)
    simp only [walkPath] at h
    cases hlk : lookupKey data k with
    | none => rw [hlk] at h; simp at h
    | some v2 =>
      rw [hlk] at h
      simp only at h
      cases v2 with
      | str t => simp [walkPath] at h
      | obj sub =>
        have ih := setSegs_self (s2 :: rest) sub s h
          (fun x hx => hs x (List.mem_cons_of_mem k hx))
        simp only [setSegs, if_neg hk]
        rw [hlk]
        simp only [ih]
        exact upsert_self data k (.obj sub) hlk

/-- C7 counterexample: the round trip fails for the empty path, which the
claim quantifies over ("for every tree, path string and string value"):
`setNestedValue(tree, "", v)` writes nothing because the final segment is
empty, so the subsequent `getNestedValue` yields undefined, not `v`. -/
theorem c7_round_trip_counterexample :
    getNestedValue (setNestedValue TObj.nil "" "x") "" = none ∧
    (none : Option String) ≠ some "x" :=
  ⟨rfl, by simp⟩

/-- C7 amended: for every path all of whose dot segments are non-empty,
`getNestedValue` after `setNestedValue` yields the written value; and for
every such path already resolving to a leaf string value,
`setNestedValue(tree, k, getNestedValue(tree, k))` leaves the tree
unchanged. -/
theorem c7_round_trip (data : TObj) (key v : String)
    (hseg : ∀ s ∈ jsSplit key ".", s ≠ "") :
    getNestedValue (setNestedValue data key v) key = some v ∧
    (∀ s, getNestedValue data key = some s → setNestedValue data key s = data) := by
  constructor
  · rw [getNestedValue, setNestedValue,
      getSegs_setSegs (jsSplit key ".") data v (jsSplit_ne_nil key ".") hseg]
  · intro s hgs
    rw [getNestedValue] at hgs
    cases hw : walkPath (.obj data) (jsSplit key ".") with
    | none => rw [hw] at hgs; simp at hgs
    | some v2 =>
      rw [hw] at hgs
      cases v2 with
      | obj o => simp at hgs
      | str t =>
        simp only [Option.some.injEq] at hgs
        subst hgs
        exact setSegs_self (jsSplit key ".") data t hw hseg

theorem c7_round_trip_witness :
    (∀ s ∈ jsSplit "a.b" ".", s ≠ "") ∧
    getNestedValue (setNestedValue TObj.nil "a.b" "v") "a.b" = some "v" ∧
    setNestedValue (TObj.cons "a" (.str "x") .nil) "a"
        ((getNestedValue (TObj.cons "a" (.str "x") .nil) "a").getD "")
      = TObj.cons "a" (.str "x") .nil :=
  ⟨by decide,
   (c7_round_trip TObj.nil "a.b" "v" (by decide)).1,
   (c7_round_trip (TObj.cons "a" (.str "x") .nil) "a" "x" (by decide)).2 "x" rfl⟩

/-- The parent dot path of a key, as computed in `extractContext`
(`keys.slice(0, -1).join(".")`). -/
def parentKeyOf (key : String) : String :=
  joinWith "." (jsSplit key ".").dropLast

/-- Specification-side description of the sibling context source: the
string-valued entries other than the key itself at the key's nesting level
(the tree root for a top-level key), rendered `key: value`. -/
def siblingLeafPairs (data : TObj) (key : String) : List String :=
  let keys := jsSplit key "."
  let lastKey := keys.getLast?.getD ""
  let currentLevel : Option TValue :=
    if keys.dropLast ≠ [] then walkPath (.obj data) keys.dropLast
    else some (.obj data)
  match currentLevel with
  | some (.obj entries) => siblingEntries entries lastKey
  | _ => []

theorem extractContext_eq (data : TObj) (key : String) :
    extractContext data key =
      (match (if parentKeyOf key ≠ "" then
          match getNestedValue data (parentKeyOf key) with
          | some v => if v ≠ "" then some ("Context: " ++ v) else none
          | none => none
        else none) with
       | some r => r
       | none =>
         if siblingLeafPairs data key ≠ [] then
           "Related: " ++ joinWith ", " ((siblingLeafPairs data key).take 3)
         else "") := rfl

/-- C8 counterexample: for the tree with the single leaf `a = "A"` and the
key `a.b`, the computed context is the string `Context: A`, not the bare
parent value `A` stated by the claim. -/
theorem c8_context_counterexample :
    extractContext (TObj.cons "a" (.str "A") .nil) "a.b" = "Context: A" ∧
    "Context: A" ≠ "A" :=
  ⟨rfl, by decide⟩

/-- C8 amended: when context injection is enabled the context computed for
a key is `Context: ` followed by the value of its immediate parent key
when that parent resolves to a non-empty string; otherwise `Related: `
followed by up to 3 sibling leaf key:value pairs at the same nesting
level, joined as `key: value` strings with `, `; and the empty string if
neither applies. -/
theorem c8_context_spec (data : TObj) (key : String) :
    (∃ v, parentKeyOf key ≠ "" ∧ getNestedValue data (parentKeyOf key) = some v ∧
      v ≠ "" ∧ extractContext data key = "Context: " ++ v) ∨
    ((parentKeyOf key = "" ∨ getNestedValue data (parentKeyOf key) = none ∨
        getNestedValue data (parentKeyOf key) = some "") ∧
      ((siblingLeafPairs data key ≠ [] ∧
          extractContext data key =
            "Related: " ++ joinWith ", " ((siblingLeafPairs data key).take 3)) ∨
        (siblingLeafPairs data key = [] ∧ extractContext data key = ""))) := by
  have sib : extractContext data key =
      (if siblingLeafPairs data key ≠ [] then
        "Related: " ++ joinWith ", " ((siblingLeafPairs data key).take 3)
       else "") →
      ((siblingLeafPairs data key ≠ [] ∧
          extractContext data key =
            "Related: " ++ joinWith ", " ((siblingLeafPairs data key).take 3)) ∨
        (siblingLeafPairs data key = [] ∧ extractContext data key = "")) := by
    intro h
    by_cases hsb : siblingLeafPairs data key = []
    · exact Or.inr ⟨hsb, by rw [h]; simp [hsb]⟩
    · exact Or.inl ⟨hsb, by rw [h]; simp [hsb]⟩
  by_cases hp : parentKeyOf key = ""
  · exact Or.inr ⟨Or.inl hp, sib (by rw [extractContext_eq]; simp [hp])⟩
  · cases hg : getNestedValue data (parentKeyOf key) with
    | none =>
      exact Or.inr ⟨Or.inr (Or.inl rfl), sib (by rw [extractContext_eq]; simp [hp, hg])⟩
    | some v =>
      by_cases hv : v = ""
      · subst hv
        exact Or.inr ⟨Or.inr (Or.inr rfl), sib (by rw [extractContext_eq]; simp [hp, hg])⟩
      · exact Or.inl ⟨v, hp, rfl, hv, by rw [extractContext_eq]; simp [hp, hg, hv]⟩

theorem processTargets_error_middle (env : String → Except String TObj)
    (oracle : TranslationRequest → Nat → Except String String)
    (cfg : OrchConfig) (provName : String) (baseData : TObj)
    (ts1 ts2 : List String) (t e : String) (ht : env t = .error e) :
    ∃ B E E2,
      processTargets env oracle cfg provName baseData (ts1 ++ t :: ts2) = (B, E) ∧
      processTargets env oracle cfg provName baseData (ts1 ++ ts2) = (B, E2) ∧
      (t, e) ∈ E := by
  induction ts1 with
  | nil =>
    refine ⟨(processTargets env oracle cfg provName baseData ts2).1,
      (t, e) :: (processTargets env oracle cfg provName baseData ts2).2,
      (processTargets env oracle cfg provName baseData ts2).2,
      ?_, rfl, by simp⟩
    simp [processTargets, ht]
  | cons h ts1 ih =>
    obtain ⟨B, E, E2, h1, h2, hmem⟩ := ih
    cases henv : env h with
    | error eh =>
      exact ⟨B, (h, eh) :: E, (h, eh) :: E2,
        by simp [processTargets, henv, h1],
        by simp [processTargets, henv, h2],
        List.mem_cons_of_mem _ hmem⟩
    | ok td =>
      cases hpl : processLanguagePair oracle cfg provName baseData td
          cfg.baseLanguage h with
      | none =>
        exact ⟨B, E, E2,
          by simp [processTargets, henv, hpl, h1],
          by simp [processTargets, henv, hpl, h2], hmem⟩
      | some b =>
        by_cases hreq : 0 < b.requests.length
        · exact ⟨b :: B, E, E2,
            by simp [processTargets, henv, hpl, hreq, h1],
            by simp [processTargets, henv, hpl, hreq, h2], hmem⟩
        · exact ⟨B, E, E2,
            by simp [processTargets, henv, hpl, hreq, h1],
            by simp [processTargets, henv, hpl, hreq, h2], hmem⟩

/-- C6: during `processFileChanges`, a target file whose read or parse
throws is caught and recorded as an error observation and that target is
skipped, while every other target is still processed: the run still
succeeds, the returned batch list is exactly the one produced without the
failing target, and the error observations contain the failing file with
its message. -/
theorem c6_per_target_isolation (env : String → Except String TObj)
    (oracle : TranslationRequest → Nat → Except String String)
    (cfg : OrchConfig) (provName : String) (baseFile : String) (baseData : TObj)
    (ts1 ts2 : List String) (t e : String)
    (hbase : env baseFile = .ok baseData)
    (ht : env t = .error e) :
    ∃ B E E2,
      processFileChanges env oracle cfg provName baseFile (ts1 ++ t :: ts2)
        = .ok (B, E) ∧
      processFileChanges env oracle cfg provName baseFile (ts1 ++ ts2)
        = .ok (B, E2) ∧
      (t, e) ∈ E := by
  obtain ⟨B, E, E2, h1, h2, hmem⟩ :=
    processTargets_error_middle env oracle cfg provName baseData ts1 ts2 t e ht
  exact ⟨B, E, E2, by simp [processFileChanges, hbase, h1],
    by simp [processFileChanges, hbase, h2], hmem⟩

def c6Base : TObj := .cons "k" (.str "v") .nil

def c6Env : String → Except String TObj := fun p =>
  if p = "base.json" then .ok c6Base
  else if p = "bad.json" then .error "boom"
  else if p = "good.json" then .ok .nil
  else .error "ENOENT"

def c6Cfg : OrchConfig :=
  { baseLanguage := "en", targetLanguages := ["de"], batchSize := 2
    retryAttempts := 3, retryDelay := 1000, rateLimitDelay := 100
    contextInjection := true }

theorem c6_per_target_isolation_witness :
    c6Env "base.json" = .ok c6Base ∧
    c6Env "bad.json" = .error "boom" ∧
    ∃ B E E2,
      processFileChanges c6Env (fun _ _ => .ok "t") c6Cfg "local" "base.json"
          (["bad.json"] ++ ["good.json"]) = .ok (B, E) ∧
      processFileChanges c6Env (fun _ _ => .ok "t") c6Cfg "local" "base.json"
          ([] ++ ["good.json"]) = .ok (B, E2) ∧
      ("bad.json", "boom") ∈ E :=
  ⟨rfl, rfl,
    c6_per_target_isolation c6Env (fun _ _ => .ok "t") c6Cfg "local" "base.json"
      c6Base [] ["good.json"] "bad.json" "boom" rfl rfl⟩

def c1Config : OrchConfig :=
  { baseLanguage := "en", targetLanguages := ["de", "fr"], batchSize := 2
    retryAttempts := 3, retryDelay := 1000, rateLimitDelay := 100
    contextInjection := true }

def c1Base : TObj :=
  .cons "k1" (.str "v1") (.cons "k2" (.str "v2") (.cons "k3" (.str "v3")
    (.cons "k4" (.str "v4") (.cons "k5" (.str "v5") .nil))))

def c1Full : TObj :=
  .cons "k1" (.str "a") (.cons "k2" (.str "b") (.cons "k3" (.str "c")
    (.cons "k4" (.str "d") (.cons "k5" (.str "e") .nil))))

def c1Oracle : TranslationRequest → Nat → Except String String :=
  fun _ _ => .ok "t"

def c1Env : String → Except String TObj := fun p =>
  if p = "en.json" then .ok c1Base
  else if p = "de.json" then .ok .nil
  else if p = "fr.json" then .ok c1Full
  else .error "ENOENT"

/-- C1: with `batchSize = 2`, an empty target needing 5 keys and a second
target needing none, `processLanguagePair` executes exactly 3 batches of
sizes 2, 2, 1, but `processFileChanges` returns a list holding only 1
batch: the source ends `processLanguagePair` with
`return batches[0] || null` ("Return first batch for now"), so the
executed batches beyond the first are dropped from the returned value,
contradicting the stated contract that the full batch list is returned. -/
theorem c1_first_batch_only :
    ((processLanguagePairAll c1Oracle c1Config "local" c1Base .nil "en" "de.json").map
        (fun b => b.requests.length) = [2, 2, 1]) ∧
    ((processFileChanges c1Env c1Oracle c1Config "local" "en.json"
        ["de.json", "fr.json"]).toOption.map (fun r => r.1.length) = some 1) :=
  ⟨rfl, rfl⟩

theorem debounce_single (d : Nat) (ty p lang : String) :
    ∀ (ts : List Nat), ts ≠ [] → ts.Chain' (fun a b => b < a + d) →
      debounceEmissions d (ts.map (fun t => ⟨t, ty, p, lang⟩)) =
        [⟨ty, p, lang, ts.getLast?.getD 0 + d⟩]
  | [], h, _ => absurd rfl h
  | [t1], _, _ => by simp [debounceEmissions, timerSurvives]
  | t1 :: t2 :: rest, _, hchain => by
    rw [List.chain'_cons] at hchain
    have h2 : ¬(t1 + d ≤ t2) := by omega
    have ih := debounce_single d ty p lang (t2 :: rest) (by simp) hchain.2
    have hsurv : timerSurvives d ⟨t1, ty, p, lang⟩
        ((t2 :: rest).map (fun t => ⟨t, ty, p, lang⟩)) = false := by
      simp [timerSurvives, h2]
    simp only [List.map_cons] at hsurv ⊢
    rw [debounceEmissions, hsurv]
    simp only [List.map_cons] at ih
    simp [ih, List.getLast?_cons_cons]

theorem filterMap_handle (cfg : WatchCfg) (ty p lang : String)
    (hfile : handleFileChange cfg ty p = some (ty, p, lang)) :
    ∀ ts : List Nat,
      List.filterMap (fun r =>
        (handleFileChange cfg r.2.1 r.2.2).map
          (fun f => PendingEvent.mk r.1 f.1 f.2.1 f.2.2))
        (ts.map (fun t => (t, ty, p)))
      = ts.map (fun t => ⟨t, ty, p, lang⟩)
  | [] => rfl
  | a :: l => by
    simp [List.filterMap_cons, hfile, filterMap_handle cfg ty p lang hfile l]

/-- C9: M raw file events of the same type on the same base-language file
path, consecutive ones each arriving within less than the debounce window
of the previous, produce exactly one coalesced file-change observation,
carrying the event type, path and language, emitted at the debounce
expiry of the last event (so only after the window elapses with no
further events for that key). -/
theorem c9_debounce_coalescing (cfg : WatchCfg) (d : Nat) (ty p lang : String)
    (ts : List Nat)
    (hfile : handleFileChange cfg ty p = some (ty, p, lang))
    (hne : ts ≠ [])
    (hchain : ts.Chain' (fun a b => b < a + d)) :
    watcherEmissions cfg d (ts.map (fun t => (t, ty, p))) =
      [⟨ty, p, lang, ts.getLast?.getD 0 + d⟩] := by
  unfold watcherEmissions
  rw [filterMap_handle cfg ty p lang hfile ts]
  exact debounce_single d ty p lang ts hne hchain

def c9Cfg : WatchCfg := ⟨"en", none⟩

theorem c9_debounce_coalescing_witness :
    handleFileChange c9Cfg "change" "en.json" = some ("change", "en.json", "en") ∧
    ([0, 100, 200] : List Nat) ≠ [] ∧
    ([0, 100, 200] : List Nat).Chain' (fun a b => b < a + 300) ∧
    watcherEmissions c9Cfg 300
        (([0, 100, 200] : List Nat).map (fun t => (t, "change", "en.json"))) =
      [⟨"change", "en.json", "en", 500⟩] :=
  ⟨rfl, by simp, by simp [List.chain'_cons],
    c9_debounce_coalescing c9Cfg 300 "change" "en.json" "en" [0, 100, 200]
      rfl (by simp) (by simp [List.chain'_cons])⟩
